import Mathlib

/-!
Shallow embedding of the client-side search / scroll / clipboard logic of
`scripts.js` (a static documentation site with in-page search, code-block
copy buttons, a reading-progress bar, and language auto-detection).

Strings are modelled by Lean `String` (a packed `List Char`); JavaScript
`String.prototype.includes` becomes an explicit substring scan, and
`toLowerCase` / `trim` are modelled per-character (ASCII case folding, the
whitespace set of `Char.isWhitespace`), which is exact for the ASCII inputs
the page works with.  JavaScript numbers appear only in the reading-progress
computation; there division by zero matters, so numbers are modelled as
exact rationals extended with `nan` and the two infinities.
-/

/-- One step of `String.prototype.includes`: does `needle` occur as a
contiguous sublist of `hay`? -/
def containsList (hay needle : List Char) : Bool :=
  match hay with
  | [] => needle.isEmpty
  | _ :: t => needle.isPrefixOf hay || containsList t needle

/-- JavaScript `hay.includes(needle)` on strings. -/
def containsStr (hay needle : String) : Bool :=
  containsList hay.data needle.data

/-- JavaScript `s.toLowerCase()`, modelled as ASCII per-character folding. -/
def toLowerStr (s : String) : String :=
  String.mk (s.data.map Char.toLower)

/-- JavaScript `s.trim()`: drop leading and trailing whitespace. -/
def trimStr (s : String) : String :=
  String.mk ((s.data.dropWhile Char.isWhitespace).rdropWhile Char.isWhitespace)

/-- A heading element that carries a stable anchor id (`h2, h3, h4` with an
`id` attribute), as returned by `findParentHeading`. -/
structure Heading where
  id : String
  text : String
deriving DecidableEq

/-- A searchable content element of the main content area, paired with the
section heading that `findParentHeading` resolves for it (or `none`).
`nodeId` stands for DOM element identity. -/
structure ContentNode where
  nodeId : Nat
  text : String
  heading : Option Heading
deriving DecidableEq

/-- A search match built in `performSearch` (scripts.js lines 293-298):
`element` is kept as `nodeId`, `heading` is the parent heading, `text` the
original (not lower-cased) text content. -/
structure MatchRecord where
  nodeId : Nat
  heading : Option Heading
  text : String
deriving DecidableEq

/-- The `id` field of a match record, `heading ? heading.id : null`
(scripts.js line 297). -/
def MatchRecord.sectionId (r : MatchRecord) : Option String :=
  r.heading.map Heading.id

/-! ## Language detection (scripts.js lines 107-144, `detectLanguage`) -/

/-- Shell rule of `detectLanguage` (lines 110-113): shebang or a common
shell command appears in the code. -/
def shellCond (code : String) : Bool :=
  containsStr code "#!/bin/bash" || containsStr code "echo " ||
  containsStr code "mkdir " || containsStr code "cd " ||
  containsStr code "ls " || containsStr code "git " ||
  containsStr code "claude "

/-- JSON rule of `detectLanguage` (lines 118-120): braces plus one of the
project-specific keys. -/
def jsonCond (code : String) : Bool :=
  containsStr code "\x7b" && containsStr code "\x7d" &&
  (containsStr code "\"hooks\"" || containsStr code "\"PreToolUse\"" ||
   containsStr code "\"matcher\"")

/-- Markdown/YAML-frontmatter rule of `detectLanguage` (line 125). -/
def markdownCond (code : String) : Bool :=
  containsStr code "---\nname:" || containsStr code "description:"

/-- JavaScript rule of `detectLanguage` (lines 130-131). -/
def jsCond (code : String) : Bool :=
  containsStr code "function" || containsStr code "const " || containsStr code "let "

/-- Python rule of `detectLanguage` (lines 136-137). -/
def pyCond (code : String) : Bool :=
  containsStr code "def " || containsStr code "import " || containsStr code "python"

/-- `detectLanguage` (scripts.js lines 107-144): the first matching rule of
the if/else-if chain wins; the rules are evaluated in the source order
shell, JSON, markdown, javascript, python, and the fallback is "bash". -/
def detectLanguage (code : String) : String :=
  if shellCond code then "bash"
  else if jsonCond code then "json"
  else if markdownCond code then "markdown"
  else if jsCond code then "javascript"
  else if pyCond code then "python"
  else "bash"

/-- The concrete input `echo '\x7b"hooks": \x7b\x7d\x7d'` of the spec
(single quotes written via their code point to keep the file ASCII-clean). -/
def shellJsonSample : String :=
  "echo " ++ String.mk [Char.ofNat 39] ++ "\x7b\"hooks\": \x7b\x7d\x7d" ++
  String.mk [Char.ofNat 39]

/-! ## Reading progress (scripts.js lines 234-244, `updateReadingProgress`)

JavaScript numbers restricted to this computation: exact rationals plus
`nan` and the infinities produced by division by zero. -/

/-- A JavaScript number as it can appear in `updateReadingProgress`. -/
inductive JSNum where
  | nan
  | posInf
  | negInf
  | fin (q : ℚ)
deriving DecidableEq

/-- JavaScript division `a / b` for finite operands: `0/0` is `NaN`,
`a/0` is a signed infinity for `a` nonzero. -/
def jsDiv (a b : ℚ) : JSNum :=
  if b = 0 then (if a = 0 then JSNum.nan else if 0 < a then JSNum.posInf else JSNum.negInf)
  else JSNum.fin (a / b)

/-- JavaScript multiplication of an intermediate value by a finite nonzero
constant (here the literal 100). -/
def jsMulConst (x : JSNum) (c : ℚ) : JSNum :=
  match x with
  | JSNum.nan => JSNum.nan
  | JSNum.posInf => if c = 0 then JSNum.nan else if 0 < c then JSNum.posInf else JSNum.negInf
  | JSNum.negInf => if c = 0 then JSNum.nan else if 0 < c then JSNum.negInf else JSNum.posInf
  | JSNum.fin q => JSNum.fin (q * c)

/-- `Math.min(x, c)` with `c` finite: `NaN` propagates, `+Infinity` yields
`c`, `-Infinity` stays. -/
def jsMin (x : JSNum) (c : ℚ) : JSNum :=
  match x with
  | JSNum.nan => JSNum.nan
  | JSNum.posInf => JSNum.fin c
  | JSNum.negInf => JSNum.negInf
  | JSNum.fin q => JSNum.fin (min q c)

/-- `updateReadingProgress` (scripts.js lines 234-244): with `winScroll` the
scroll offset and `height` the total scrollable height, the width written to
the progress bar is `Math.min((winScroll / height) * 100, 100)`.  There is
no guard for `height = 0`. -/
def updateReadingProgress (winScroll height : ℚ) : JSNum :=
  jsMin (jsMulConst (jsDiv winScroll height) 100) 100

/-! ## Regex escaping and the highlighter (scripts.js lines 393-409) -/

/-- The character class of `escapeRegExp` (line 408):
`[.*+?^$\x7b\x7d()|[\]\\]`. -/
def metaChars : List Char :=
  ['.', '*', '+', '?', '^', '$', '\x7b', '\x7d', '(', ')', '|', '[', ']', '\\']

/-- `escapeRegExp` (lines 407-409) on the character list: every metacharacter
is replaced by a backslash followed by itself (`'\\$&'`). -/
def escapeChars : List Char → List Char
  | [] => []
  | c :: rest =>
    if c ∈ metaChars then '\\' :: c :: escapeChars rest else c :: escapeChars rest

/-- Syntax validator for the core of the JavaScript regular-expression
grammar (strict/unicode-mode flavour, so it is conservative: everything it
accepts is accepted by `new RegExp`).  Arguments: remaining pattern, open
group depth, whether the previous token was a quantifiable atom, whether we
are inside a character class.  `new RegExp(p)` throwing a `SyntaxError` is
modelled by this returning `false`. -/
def regexValidAux : List Char → Nat → Bool → Bool → Bool
  | [], depth, _, inClass => !inClass && depth == 0
  | c :: rest, depth, prevAtom, inClass =>
    if inClass then
      if c == '\\' then
        match rest with
        | [] => false
        | _ :: rest2 => regexValidAux rest2 depth prevAtom true
      else if c == ']' then regexValidAux rest depth true false
      else regexValidAux rest depth prevAtom true
    else
      if c == '\\' then
        match rest with
        | [] => false
        | _ :: rest2 => regexValidAux rest2 depth true false
      else if c == '(' then regexValidAux rest (depth + 1) false false
      else if c == ')' then depth != 0 && regexValidAux rest (depth - 1) true false
      else if c == '|' then regexValidAux rest depth false false
      else if c == '*' || c == '+' || c == '?' then
        prevAtom && regexValidAux rest depth false false
      else if c == '\x7b' || c == '\x7d' || c == ']' then false
      else if c == '[' then regexValidAux rest depth prevAtom true
      else if c == '^' || c == '$' then regexValidAux rest depth false false
      else regexValidAux rest depth true false

/-- A whole pattern is valid when the scan ends at depth 0 outside a class. -/
def regexValid (p : List Char) : Bool :=
  regexValidAux p 0 false false

/-- The pattern `highlightText` hands to `new RegExp` (line 396):
`(${escapeRegExp(query)})`. -/
def highlightPattern (query : String) : List Char :=
  '(' :: (escapeChars query.data ++ [')'])

/-- Case-insensitive "the query matches at the head of this text", the
matching discipline of the `'gi'` literal pattern. -/
def startsWithCI : List Char → List Char → Bool
  | _, [] => true
  | [], _ :: _ => false
  | t :: ts, q :: qs => (t.toLower == q.toLower) && startsWithCI ts qs

/-- Opening markup emitted around a match (line 398). -/
def hlOpen : List Char := "<span class=\"search-highlight\">".data

/-- Closing markup emitted around a match (line 398). -/
def hlClose : List Char := "</span>".data

/-- `text.replace(regex, '<span class="search-highlight">$1</span>')` for the
escaped case-insensitive global pattern: leftmost non-overlapping matches of
the literal query are wrapped, preserving the original casing (`$1`). -/
def replaceHighlightAux (q : List Char) : List Char → List Char
  | [] => []
  | t :: ts =>
    if h : q ≠ [] ∧ startsWithCI (t :: ts) q = true then
      hlOpen ++ (t :: ts).take q.length ++
        (hlClose ++ replaceHighlightAux q ((t :: ts).drop q.length))
    else t :: replaceHighlightAux q ts
termination_by l => l.length
decreasing_by
  · have hq : 0 < q.length := List.length_pos.mpr h.1
    simp only [List.length_drop, List.length_cons]
    omega
  · simp only [List.length_cons]
    omega

/-- `highlightText` (lines 393-399), total form: empty query returns the
text unchanged, otherwise all matches are wrapped. -/
def highlightText (text query : String) : String :=
  if query = "" then text
  else String.mk (replaceHighlightAux query.data text.data)

/-- `highlightText` with the `new RegExp` exception channel made explicit:
`none` models the `SyntaxError` that an unescaped pattern could raise. -/
def highlightTextChecked (text query : String) : Option String :=
  if query = "" then some text
  else if regexValid (highlightPattern query) then
    some (String.mk (replaceHighlightAux query.data text.data))
  else none

/-! ## Search (scripts.js lines 271-309 and 336-385) -/

/-- Query normalization of `performSearch` (line 273):
`searchInput.value.toLowerCase().trim()`. -/
def normalizeQuery (input : String) : String :=
  trimStr (toLowerStr input)

/-- The `sections.forEach` loop of `performSearch` (lines 286-305): a node
whose lower-cased text contains the query yields a `MatchRecord`, pushed
unless a record for the same element is already present. -/
def scanAux (query : String) : List ContentNode → List MatchRecord → List MatchRecord
  | [], results => results
  | node :: rest, results =>
    if containsStr (toLowerStr node.text) query then
      (if results.any (fun r => r.nodeId == node.nodeId) then
        scanAux query rest results
      else
        scanAux query rest (results ++ [⟨node.nodeId, node.heading, node.text⟩]))
    else scanAux query rest results

/-- All match records for a query over the corpus, in discovery order. -/
def scanCorpus (query : String) (corpus : List ContentNode) : List MatchRecord :=
  scanAux query corpus []

/-- The deduplication loop of `displaySearchResults` (lines 344-353): walk
the matches keeping a `seenHeadings` set of heading ids; a record is pushed
only when it has a heading whose id was not seen yet.  Records without a
heading never enter `uniqueResults`. -/
def dedupAux : List MatchRecord → List String → List MatchRecord
  | [], _ => []
  | r :: rest, seen =>
    match r.heading with
    | some h =>
      if seen.contains h.id then dedupAux rest seen
      else r :: dedupAux rest (h.id :: seen)
    | none => dedupAux rest seen

/-- `uniqueResults` as built from the raw match list. -/
def dedupResults (results : List MatchRecord) : List MatchRecord :=
  dedupAux results []

/-- `uniqueResults.slice(0, 5)` (line 356): the records that are rendered. -/
def displayedRecords (results : List MatchRecord) : List MatchRecord :=
  (dedupResults results).take 5

/-- The value assigned to `searchResults.innerHTML`, before serialization:
either the no-results message for the query, or a header carrying the raw
match count plus the rendered records. -/
inductive RenderModel where
  | noResults (query : String)
  | found (total : Nat) (records : List MatchRecord) (query : String)
deriving DecidableEq

/-- The result-count header (lines 377-384): "Found N result(s)", plus
" (showing 5 of N)" when the raw match count exceeds 5. -/
def searchHeaderHtml (total : Nat) : String :=
  "<div class=\"search-results-header\">Found " ++ toString total ++ " result" ++
  (if total != 1 then "s" else "") ++
  (if 5 < total then " (showing 5 of " ++ toString total ++ ")" else "") ++
  "</div>"

/-- One rendered search result (lines 356-374): anchor to `#${result.id}`
(the JavaScript `null` id prints as "null"), the heading text or the
"Content" fallback, and a 100-character snippet, both highlighted. -/
def renderEntry (query : String) (r : MatchRecord) : String :=
  "<div class=\"search-result\"><a href=\"#" ++
  (match r.heading with | some h => h.id | none => "null") ++
  "\">" ++
  highlightText (match r.heading with | some h => h.text | none => "Content") query ++
  "</a><div>" ++
  highlightText (if 100 < r.text.length then r.text.take 100 ++ "..." else r.text) query ++
  "</div></div>"

/-- `displaySearchResults` (lines 336-385) as a render model: empty input
list gives the no-results message, otherwise the header carries the raw
(pre-deduplication) count and the deduplicated list is cut to 5. -/
def displaySearchResults (results : List MatchRecord) (query : String) : RenderModel :=
  if results.length == 0 then RenderModel.noResults query
  else RenderModel.found results.length (displayedRecords results) query

/-- Serialization of the render model to the `innerHTML` string (template
literals of lines 339 and 364-384, decorative indentation elided). -/
def renderHtml : RenderModel → String
  | RenderModel.noResults q =>
      "<div class=\"search-no-results\">No results found for \"" ++ q ++ "\"</div>"
  | RenderModel.found total records q =>
      searchHeaderHtml total ++ String.join (records.map (renderEntry q))

/-- `performSearch` (lines 271-309): normalize the input; a query shorter
than 2 characters clears the results (`clearSearchResults`, line 415-417,
sets `innerHTML` to the empty string) without scanning the corpus; otherwise
scan and display.  The pair is (match records, final `innerHTML`). -/
def performSearch (input : String) (corpus : List ContentNode) : List MatchRecord × String :=
  let query := normalizeQuery input
  if query.length < 2 then ([], "")
  else
    let results := scanCorpus query corpus
    (results, renderHtml (displaySearchResults results query))

/-! ## Clipboard fallback (scripts.js lines 173-204) -/

/-- Outcome of `document.execCommand('copy')`: it may throw, or return a
boolean success flag. -/
inductive ExecResult where
  | threw
  | returned (b : Bool)
deriving DecidableEq

/-- The UI state touched by the fallback copy path: the number of children
of `document.body` (the temporary textarea is appended and removed there)
and the feedback state of the copy button. -/
structure UIState where
  bodyChildren : Nat
  buttonText : String
  errorFlag : Bool
  copiedFlag : Bool
deriving DecidableEq

/-- `showCopySuccess` (lines 210-219): label "Copied!" and the `copied`
style class (the 2-second revert timer is outside this model). -/
def showCopySuccess (st : UIState) : UIState :=
  ⟨st.bodyChildren, "Copied!", st.errorFlag, true⟩

/-- `fallbackCopyToClipboard` (lines 173-204): append the off-screen
textarea, run `execCommand('copy')` inside try/catch - the boolean result is
discarded, only a thrown exception reaches the failure branch ("Failed"
label, `error` class) - then remove the textarea unconditionally. -/
def fallbackCopyToClipboard (exec : ExecResult) (st : UIState) : UIState :=
  let st1 : UIState := ⟨st.bodyChildren + 1, st.buttonText, st.errorFlag, st.copiedFlag⟩
  let st2 : UIState :=
    match exec with
    | ExecResult.returned _ => showCopySuccess st1
    | ExecResult.threw => ⟨st1.bodyChildren, "Failed", true, st1.copiedFlag⟩
  ⟨st2.bodyChildren - 1, st2.buttonText, st2.errorFlag, st2.copiedFlag⟩

/-- Feedback the source produces for each `execCommand` outcome. -/
def feedbackText : ExecResult → String
  | ExecResult.threw => "Failed"
  | ExecResult.returned _ => "Copied!"

/-! ## A small model of `innerHTML` parsing, for the injection question -/

/-- Scanner state machine behind `extractTags`: the second argument is
`some acc` while the letters of a candidate tag name (opened by `<`) are
being collected, in reverse order. -/
def extractTagsAux : List Char → Option (List Char) → List (List Char)
  | [], none => []
  | [], some acc => if acc.isEmpty then [] else [acc.reverse]
  | c :: rest, none =>
    if c == '<' then extractTagsAux rest (some []) else extractTagsAux rest none
  | c :: rest, some acc =>
    if c.isAlpha then extractTagsAux rest (some (c :: acc))
    else if acc.isEmpty then
      (if c == '<' then extractTagsAux rest (some []) else extractTagsAux rest none)
    else
      (if c == '<' then acc.reverse :: extractTagsAux rest (some [])
       else acc.reverse :: extractTagsAux rest none)

/-- Names of the elements an `innerHTML` assignment would create: every
`<` immediately followed by letters opens a tag of that name. -/
def extractTags (l : List Char) : List (List Char) :=
  extractTagsAux l none

/-! ## Helper lemmas: substrings, trimming, case folding -/

/-- `containsList` decides contiguous-sublist containment. -/
theorem containsList_iff_within (hay needle : List Char) :
    containsList hay needle = true ↔ needle <:+: hay := by
  induction hay with
  | nil =>
    simp [containsList, List.isEmpty_iff, List.infix_nil]
  | cons a t ih =>
    simp [containsList, Bool.or_eq_true, List.infix_cons_iff, ih,
      List.isPrefixOf_iff_prefix]

/-- `containsStr` decides substring containment on the character lists. -/
theorem containsStr_iff_within (hay needle : String) :
    containsStr hay needle = true ↔ needle.data <:+: hay.data := by
  exact containsList_iff_within hay.data needle.data

/-- The trimmed character list is a contiguous sublist of the original. -/
theorem trimStr_data_within (s : String) :
    (trimStr s).data <:+: s.data := by
  have hpre := List.rdropWhile_prefix Char.isWhitespace
    (s.data.dropWhile Char.isWhitespace)
  have hsuf := @List.dropWhile_suffix Char s.data Char.isWhitespace
  exact List.IsInfix.trans (List.IsPrefix.isInfix hpre) (List.IsSuffix.isInfix hsuf)

/-- `Char.ofNat` evaluates to the given code point when it is valid. -/
theorem char_toNat_ofNat_of_valid (n : Nat) (h : n.isValidChar) :
    (Char.ofNat n).toNat = n := by
  unfold Char.ofNat
  rw [dif_pos h]
  rfl

/-- ASCII case folding is idempotent. -/
theorem char_toLower_toLower (c : Char) : c.toLower.toLower = c.toLower := by
  simp only [Char.toLower]
  by_cases h : c.toNat ≥ 65 ∧ c.toNat ≤ 90
  · rw [if_pos h]
    have hv : (c.toNat + 32).isValidChar := Or.inl (by omega)
    have ht : (Char.ofNat (c.toNat + 32)).toNat = c.toNat + 32 :=
      char_toNat_ofNat_of_valid _ hv
    rw [if_neg (by rw [ht]; omega)]
  · rw [if_neg h, if_neg h]

/-- A map that fixes every element of a list fixes the list. -/
theorem list_map_eq_self {f : Char → Char} :
    ∀ l : List Char, (∀ c ∈ l, f c = c) → l.map f = l := by
  intro l h
  induction l with
  | nil => rfl
  | cons a t ih => simp_all

/-- A substring of lower-cased text is itself fixed by lower-casing. -/
theorem toLowerStr_fixed_of_within {s t : String}
    (h : s.data <:+: (toLowerStr t).data) : toLowerStr s = s := by
  have hsub : ∀ c ∈ s.data, c.toLower = c := by
    intro c hc
    have hmem : c ∈ t.data.map Char.toLower := List.IsInfix.subset h hc
    obtain ⟨x, _, hx⟩ := List.mem_map.mp hmem
    rw [← hx]
    exact char_toLower_toLower x
  show String.mk (s.data.map Char.toLower) = s
  rw [list_map_eq_self s.data hsub]

/-- For a string fixed by lower-casing, normalization is just trimming. -/
theorem normalizeQuery_of_lower_fixed {s : String} (h : toLowerStr s = s) :
    normalizeQuery s = trimStr s := by
  unfold normalizeQuery
  rw [h]

/-! ## Helper lemmas: the corpus scan of `performSearch` -/

/-- The scan only appends: records already accumulated survive. -/
theorem scanAux_mem_of_mem_acc (query : String) :
    ∀ (corpus : List ContentNode) (acc : List MatchRecord) (r : MatchRecord),
      r ∈ acc → r ∈ scanAux query corpus acc := by
  intro corpus
  induction corpus with
  | nil =>
    intro acc r hr
    simpa [scanAux] using hr
  | cons n t ih =>
    intro acc r hr
    cases hc : containsStr (toLowerStr n.text) query with
    | false => simpa [scanAux, hc] using ih acc r hr
    | true =>
      cases hg : acc.any (fun x => x.nodeId == n.nodeId) with
      | true => simpa [scanAux, hc, hg] using ih acc r hr
      | false =>
        have hmem : r ∈ acc ++ [(⟨n.nodeId, n.heading, n.text⟩ : MatchRecord)] :=
          List.mem_append_left _ hr
        simpa [scanAux, hc, hg] using ih _ r hmem

/-- Every corpus node whose lower-cased text contains the query contributes
a record with its element identity to the scan result. -/
theorem scanAux_finds (query : String) :
    ∀ (corpus : List ContentNode) (acc : List MatchRecord) (node : ContentNode),
      node ∈ corpus → containsStr (toLowerStr node.text) query = true →
      ∃ r, r ∈ scanAux query corpus acc ∧ r.nodeId = node.nodeId := by
  intro corpus
  induction corpus with
  | nil =>
    intro acc node hmem
    exact absurd hmem (List.not_mem_nil node)
  | cons n t ih =>
    intro acc node hmem hc
    rcases List.mem_cons.mp hmem with heq | hmt
    · subst heq
      cases hg : acc.any (fun x => x.nodeId == node.nodeId) with
      | true =>
        obtain ⟨x, hx, hxid⟩ := List.any_eq_true.mp hg
        refine ⟨x, ?_, by simpa using hxid⟩
        have hx2 : x ∈ scanAux query t acc := scanAux_mem_of_mem_acc query t acc x hx
        simpa [scanAux, hc, hg] using hx2
      | false =>
        refine ⟨⟨node.nodeId, node.heading, node.text⟩, ?_, rfl⟩
        have hmem2 : (⟨node.nodeId, node.heading, node.text⟩ : MatchRecord) ∈
            acc ++ [(⟨node.nodeId, node.heading, node.text⟩ : MatchRecord)] := by
          simp
        have hx2 := scanAux_mem_of_mem_acc query t _ _ hmem2
        simpa [scanAux, hc, hg] using hx2
    · cases hc2 : containsStr (toLowerStr n.text) query with
      | false =>
        obtain ⟨r, hr, hrid⟩ := ih acc node hmt hc
        exact ⟨r, by simpa [scanAux, hc2] using hr, hrid⟩
      | true =>
        cases hg : acc.any (fun x => x.nodeId == n.nodeId) with
        | true =>
          obtain ⟨r, hr, hrid⟩ := ih acc node hmt hc
          exact ⟨r, by simpa [scanAux, hc2, hg] using hr, hrid⟩
        | false =>
          obtain ⟨r, hr, hrid⟩ :=
            ih (acc ++ [(⟨n.nodeId, n.heading, n.text⟩ : MatchRecord)]) node hmt hc
          exact ⟨r, by simpa [scanAux, hc2, hg] using hr, hrid⟩

/-- A corpus with no matching node leaves the accumulator untouched. -/
theorem scanAux_no_match (query : String) :
    ∀ (corpus : List ContentNode) (acc : List MatchRecord),
      (∀ n ∈ corpus, containsStr (toLowerStr n.text) query = false) →
      scanAux query corpus acc = acc := by
  intro corpus
  induction corpus with
  | nil => intro acc _; rfl
  | cons n t ih =>
    intro acc h
    have hn := h n (List.mem_cons_self n t)
    have ht : ∀ m ∈ t, containsStr (toLowerStr m.text) query = false :=
      fun m hm => h m (List.mem_cons_of_mem n hm)
    simp [scanAux, hn, ih acc ht]

/-! ## Helper lemmas: the deduplication loop of `displaySearchResults` -/

/-- Unfolding: a record with an unseen heading id is kept and its id marked
as seen. -/
theorem dedupAux_cons_keep {r0 : MatchRecord} {h0 : Heading}
    (rest : List MatchRecord) (seen : List String)
    (hh : r0.heading = some h0) (hc : h0.id ∉ seen) :
    dedupAux (r0 :: rest) seen = r0 :: dedupAux rest (h0.id :: seen) := by
  simp [dedupAux, hh, hc]

/-- Unfolding: a record with an already-seen heading id is skipped. -/
theorem dedupAux_cons_skip {r0 : MatchRecord} {h0 : Heading}
    (rest : List MatchRecord) (seen : List String)
    (hh : r0.heading = some h0) (hc : h0.id ∈ seen) :
    dedupAux (r0 :: rest) seen = dedupAux rest seen := by
  simp [dedupAux, hh, hc]

/-- Unfolding: a record without a heading is dropped. -/
theorem dedupAux_cons_none {r0 : MatchRecord}
    (rest : List MatchRecord) (seen : List String) (hh : r0.heading = none) :
    dedupAux (r0 :: rest) seen = dedupAux rest seen := by
  simp [dedupAux, hh]

/-- Every record the deduplication keeps has a heading whose id was not in
the `seenHeadings` set it started from. -/
theorem dedupAux_mem (r : MatchRecord) :
    ∀ (l : List MatchRecord) (seen : List String), r ∈ dedupAux l seen →
      ∃ h, r.heading = some h ∧ h.id ∉ seen := by
  intro l
  induction l with
  | nil =>
    intro seen hr
    simp [dedupAux] at hr
  | cons r0 rest ih =>
    intro seen hr
    cases hh : r0.heading with
    | none =>
      rw [dedupAux_cons_none rest seen hh] at hr
      exact ih seen hr
    | some h0 =>
      by_cases hc : h0.id ∈ seen
      · rw [dedupAux_cons_skip rest seen hh hc] at hr
        exact ih seen hr
      · rw [dedupAux_cons_keep rest seen hh hc] at hr
        rcases List.mem_cons.mp hr with heq | hmem
        · subst heq
          exact ⟨h0, hh, hc⟩
        · obtain ⟨h, hhd, hcon⟩ := ih (h0.id :: seen) hmem
          exact ⟨h, hhd, fun hin => hcon (List.mem_cons_of_mem _ hin)⟩

/-- No two records kept by the deduplication share a section id. -/
theorem dedupAux_pairwise :
    ∀ (l : List MatchRecord) (seen : List String),
      (dedupAux l seen).Pairwise (fun a b => a.sectionId ≠ b.sectionId) := by
  intro l
  induction l with
  | nil => intro seen; simp [dedupAux]
  | cons r0 rest ih =>
    intro seen
    cases hh : r0.heading with
    | none =>
      rw [dedupAux_cons_none rest seen hh]
      exact ih seen
    | some h0 =>
      by_cases hc : h0.id ∈ seen
      · rw [dedupAux_cons_skip rest seen hh hc]
        exact ih seen
      · rw [dedupAux_cons_keep rest seen hh hc]
        refine List.pairwise_cons.mpr ⟨?_, ih (h0.id :: seen)⟩
        intro b hb
        obtain ⟨hb0, hbhd, hbcon⟩ := dedupAux_mem b rest (h0.id :: seen) hb
        have hbne : hb0.id ≠ h0.id := by
          intro heq
          exact hbcon (heq ▸ List.mem_cons_self h0.id seen)
        intro hcontra
        have h1 : r0.sectionId = some h0.id := by
          simp [MatchRecord.sectionId, hh]
        have h2 : b.sectionId = some hb0.id := by
          simp [MatchRecord.sectionId, hbhd]
        rw [h1, h2] at hcontra
        exact hbne (Option.some.inj hcontra).symm

/-- The first record of the list carrying a given section id (when the id is
not already seen) is kept by the deduplication. -/
theorem dedupAux_first (sid : String) (r : MatchRecord) :
    ∀ (l : List MatchRecord) (seen : List String),
      sid ∉ seen →
      l.find? (fun x => x.sectionId == some sid) = some r →
      r ∈ dedupAux l seen := by
  intro l
  induction l with
  | nil =>
    intro seen _ hf
    simp at hf
  | cons r0 rest ih =>
    intro seen hseen hf
    cases hp : r0.sectionId == some sid with
    | true =>
      have hr0 : r0 = r := by
        rw [List.find?_cons] at hf
        simp only [hp] at hf
        exact Option.some.inj hf
      have hsid : r0.sectionId = some sid := by simpa using hp
      cases hh : r0.heading with
      | none => simp [MatchRecord.sectionId, hh] at hsid
      | some h0 =>
        have hid : h0.id = sid := by
          rw [MatchRecord.sectionId, hh] at hsid
          simpa using hsid
        have hc : h0.id ∉ seen := by rw [hid]; exact hseen
        rw [dedupAux_cons_keep rest seen hh hc, ← hr0]
        exact List.mem_cons_self r0 _
    | false =>
      have hf2 : rest.find? (fun x => x.sectionId == some sid) = some r := by
        rw [List.find?_cons] at hf
        simpa only [hp] using hf
      cases hh : r0.heading with
      | none =>
        rw [dedupAux_cons_none rest seen hh]
        exact ih seen hseen hf2
      | some h0 =>
        by_cases hc : h0.id ∈ seen
        · rw [dedupAux_cons_skip rest seen hh hc]
          exact ih seen hseen hf2
        · have hne : sid ≠ h0.id := by
            intro heq
            have hx : r0.sectionId = some sid := by
              simp [MatchRecord.sectionId, hh, heq]
            rw [hx] at hp
            simp at hp
          have hseen2 : sid ∉ h0.id :: seen := by
            intro hin
            rcases List.mem_cons.mp hin with heq | hin2
            · exact hne heq
            · exact hseen hin2
          rw [dedupAux_cons_keep rest seen hh hc]
          exact List.mem_cons_of_mem r0 (ih (h0.id :: seen) hseen2 hf2)

/-- Deduplication never lengthens the list. -/
theorem dedupAux_length_le :
    ∀ (l : List MatchRecord) (seen : List String),
      (dedupAux l seen).length ≤ l.length := by
  intro l
  induction l with
  | nil => intro seen; simp [dedupAux]
  | cons r0 rest ih =>
    intro seen
    cases hh : r0.heading with
    | none =>
      rw [dedupAux_cons_none rest seen hh]
      exact Nat.le_succ_of_le (ih seen)
    | some h0 =>
      by_cases hc : h0.id ∈ seen
      · rw [dedupAux_cons_skip rest seen hh hc]
        exact Nat.le_succ_of_le (ih seen)
      · rw [dedupAux_cons_keep rest seen hh hc, List.length_cons, List.length_cons]
        exact Nat.succ_le_succ (ih (h0.id :: seen))

/-- When every match record lacks a heading, deduplication keeps nothing. -/
theorem dedupAux_all_none :
    ∀ (l : List MatchRecord) (seen : List String),
      (∀ r ∈ l, r.heading = none) → dedupAux l seen = [] := by
  intro l
  induction l with
  | nil => intro seen _; rfl
  | cons r0 rest ih =>
    intro seen h
    have h0 := h r0 (List.mem_cons_self r0 rest)
    have ht : ∀ r ∈ rest, r.heading = none :=
      fun r hr => h r (List.mem_cons_of_mem r0 hr)
    rw [dedupAux_cons_none rest seen h0]
    exact ih seen ht

/-! ## Helper lemmas: the escaped pattern always parses -/

/-- Scanning an escaped query body leaves the validator outside any class at
the same depth: each escaped metacharacter is a two-character atom and each
remaining character is a literal atom. -/
theorem regexValidAux_escape :
    ∀ (l rest : List Char) (depth : Nat) (a : Bool),
      ∃ a2, regexValidAux (escapeChars l ++ rest) depth a false =
        regexValidAux rest depth a2 false := by
  intro l
  induction l with
  | nil =>
    intro rest depth a
    exact ⟨a, rfl⟩
  | cons c l2 ih =>
    intro rest depth a
    by_cases hm : c ∈ metaChars
    · have he : escapeChars (c :: l2) = '\\' :: c :: escapeChars l2 := by
        simp [escapeChars, hm]
      rw [he, List.cons_append, List.cons_append]
      have hstep : regexValidAux ('\\' :: c :: (escapeChars l2 ++ rest)) depth a false =
          regexValidAux (escapeChars l2 ++ rest) depth true false := by
        simp [regexValidAux]
      rw [hstep]
      exact ih rest depth true
    · have he : escapeChars (c :: l2) = c :: escapeChars l2 := by
        simp [escapeChars, hm]
      rw [he, List.cons_append]
      simp only [metaChars, List.mem_cons, List.not_mem_nil, or_false] at hm
      push_neg at hm
      obtain ⟨n1, n2, n3, n4, n5, n6, n7, n8, n9, n10, n11, n12, n13, n14⟩ := hm
      have hstep : regexValidAux (c :: (escapeChars l2 ++ rest)) depth a false =
          regexValidAux (escapeChars l2 ++ rest) depth true false := by
        conv_lhs => rw [regexValidAux.eq_def]
        simp only [beq_eq_false_iff_ne.mpr n14, beq_eq_false_iff_ne.mpr n9,
          beq_eq_false_iff_ne.mpr n10, beq_eq_false_iff_ne.mpr n11,
          beq_eq_false_iff_ne.mpr n2, beq_eq_false_iff_ne.mpr n3,
          beq_eq_false_iff_ne.mpr n4, beq_eq_false_iff_ne.mpr n7,
          beq_eq_false_iff_ne.mpr n8, beq_eq_false_iff_ne.mpr n13,
          beq_eq_false_iff_ne.mpr n12, beq_eq_false_iff_ne.mpr n5,
          beq_eq_false_iff_ne.mpr n6]
        simp
      rw [hstep]
      exact ih rest depth true

/-- The pattern `highlightText` builds is always syntactically valid: the
group wrapper balances and the escaped body contains only literal atoms. -/
theorem regexValid_highlightPattern (q : String) :
    regexValid (highlightPattern q) = true := by
  unfold regexValid highlightPattern
  have hstep : regexValidAux ('(' :: (escapeChars q.data ++ [')'])) 0 false false =
      regexValidAux (escapeChars q.data ++ [')']) 1 false false := by
    conv_lhs => rw [regexValidAux.eq_def]
    simp
  rw [hstep]
  obtain ⟨a2, ha⟩ := regexValidAux_escape q.data [')'] 1 false
  rw [ha]
  conv_lhs => rw [regexValidAux.eq_def]
  simp [regexValidAux]

/-! ## Claim theorems -/

/-- C1 (counterexample to the claim as stated): a match record whose
`sectionId` is null is NOT retained by the deduplication of
`displaySearchResults` - the `result.heading &&` guard drops it entirely,
so it cannot appear in `uniqueResults`. -/
theorem dedup_null_section_dropped :
    ¬ ((⟨0, none, "x"⟩ : MatchRecord) ∈ dedupResults [⟨0, none, "x"⟩]) := by
  decide

/-- C1 (amended): the deduplicated list keeps exactly the first match record
for each distinct non-null `sectionId`: every retained record has a non-null
heading, no two retained records share a `sectionId`, and the first record
of the input carrying any given `sectionId` is retained.  Records with a
null `sectionId` are dropped, not retained. -/
theorem dedup_first_per_section (results : List MatchRecord) :
    (∀ r ∈ dedupResults results, ∃ h, r.heading = some h) ∧
    (dedupResults results).Pairwise (fun a b => a.sectionId ≠ b.sectionId) ∧
    (∀ (sid : String) (r : MatchRecord),
      results.find? (fun x => x.sectionId == some sid) = some r →
      r ∈ dedupResults results) := by
  refine ⟨?_, dedupAux_pairwise results [], ?_⟩
  · intro r hr
    obtain ⟨h, hh, _⟩ := dedupAux_mem r results [] hr
    exact ⟨h, hh⟩
  · intro sid r hf
    exact dedupAux_first sid r results [] (by simp) hf

/-- C1 witness: in a two-record list sharing section id "s1", the first
record is the one retained. -/
theorem dedup_first_per_section_witness :
    (⟨1, some ⟨"s1", "Alpha"⟩, "t1"⟩ : MatchRecord) ∈
      dedupResults [⟨1, some ⟨"s1", "Alpha"⟩, "t1"⟩, ⟨2, some ⟨"s1", "Alpha"⟩, "t2"⟩] :=
  (dedup_first_per_section
      [⟨1, some ⟨"s1", "Alpha"⟩, "t1"⟩, ⟨2, some ⟨"s1", "Alpha"⟩, "t2"⟩]).2.2
    "s1" ⟨1, some ⟨"s1", "Alpha"⟩, "t1"⟩ (by decide)

/-- C2: at the failing input offset = 0, totalScrollable = 0 the code
computes `(0 / 0) * 100 = NaN` and `Math.min(NaN, 100) = NaN`, not the
percentage 0 that the claim (and the repository's own tests, which expect a
`0%` width for zero scrollable height) requires. -/
theorem updateReadingProgress_zero_height_nan :
    updateReadingProgress 0 0 = JSNum.nan ∧ JSNum.nan ≠ JSNum.fin 0 := by
  decide

/-- C3: `highlightText` totally succeeds for every text and query: the
escaped pattern always parses, so the checked form (with the `new RegExp`
exception channel) always returns the total form's value and never throws. -/
theorem highlightText_never_throws (text query : String) :
    highlightTextChecked text query = some (highlightText text query) := by
  by_cases hq : query = ""
  · simp [highlightTextChecked, highlightText, hq]
  · simp [highlightTextChecked, highlightText, hq, regexValid_highlightPattern query]

/-- C4 (counterexample to the claim as stated): the no-results message
interpolates the query into the raw markup assigned to `innerHTML`, so a
query containing markup injects an element: searching for an unmatched
query containing a `<b>` tag makes a "b" element appear among the parsed
tags of the result area, while a benign unmatched query produces only the
message div. -/
theorem noResults_injects_markup :
    "b".data ∈ extractTags ((performSearch "<b>zz</b>" [⟨0, "hello", none⟩]).snd).data ∧
    extractTags ((performSearch "zzqq" [⟨0, "hello", none⟩]).snd).data = ["div".data] := by
  decide

/-- C4 (amended): for a normalized query of length at least 2 matching no
corpus node, the rendered output is the no-results message embedding the
verbatim (not highlighted) query - but embedded into the raw markup, not as
text. -/
theorem noResults_message_verbatim (input : String) (corpus : List ContentNode)
    (h2 : 2 ≤ (normalizeQuery input).length)
    (hno : ∀ n ∈ corpus, containsStr (toLowerStr n.text) (normalizeQuery input) = false) :
    (performSearch input corpus).snd =
      "<div class=\"search-no-results\">No results found for \"" ++
        normalizeQuery input ++ "\"</div>" ∧
    containsStr (performSearch input corpus).snd (normalizeQuery input) = true := by
  have hscan : scanCorpus (normalizeQuery input) corpus = [] :=
    scanAux_no_match (normalizeQuery input) corpus [] hno
  have hlen : ¬ ((normalizeQuery input).length < 2) := by omega
  have heq : (performSearch input corpus).snd =
      "<div class=\"search-no-results\">No results found for \"" ++
        normalizeQuery input ++ "\"</div>" := by
    simp [performSearch, hlen, hscan, displaySearchResults, renderHtml]
  refine ⟨heq, ?_⟩
  rw [heq]
  apply (containsStr_iff_within _ _).mpr
  rw [String.data_append, String.data_append]
  exact List.infix_append _ _ _

/-- C4 witness: a concrete benign unmatched query renders the message with
the query embedded verbatim. -/
theorem noResults_message_verbatim_witness :
    (performSearch "zzqq" [⟨0, "hello", none⟩]).snd =
      "<div class=\"search-no-results\">No results found for \"" ++
        normalizeQuery "zzqq" ++ "\"</div>" ∧
    containsStr (performSearch "zzqq" [⟨0, "hello", none⟩]).snd (normalizeQuery "zzqq") = true :=
  noResults_message_verbatim "zzqq" [⟨0, "hello", none⟩] (by decide) (by decide)

/-- C5: an input whose normalized form is shorter than 2 characters is a
defined no-op: no match records, display cleared to the empty string, and
the corpus is never consulted (the result is the same for every corpus). -/
theorem performSearch_short_query_noop (input : String) (corpus : List ContentNode)
    (h : (normalizeQuery input).length < 2) :
    performSearch input corpus = ([], "") := by
  simp [performSearch, h]

/-- C5 witness: the one-character input "a" is a no-op even over a corpus
that contains it. -/
theorem performSearch_short_query_noop_witness :
    (normalizeQuery "a").length < 2 ∧ performSearch "a" [⟨0, "abc", none⟩] = ([], "") :=
  ⟨by decide, performSearch_short_query_noop "a" [⟨0, "abc", none⟩] (by decide)⟩

/-- C6 (counterexample to the claim as stated): the string " b" has length 2
and occurs as a substring of the lower-cased text "a b" of the node, but
searching for it normalizes the query to "b" (length 1), which is the
short-query no-op, so no record for the node is produced. -/
theorem search_roundtrip_counterexample :
    containsStr (toLowerStr "A b") " b" = true ∧ (" b" : String).length = 2 ∧
    performSearch " b" [⟨0, "A b", none⟩] = ([], "") := by
  decide

/-- C6 (amended): the round trip holds for substrings that survive
normalization: if `s` occurs in a corpus node's lower-cased text and its
trimmed form still has length at least 2, then searching for `s` yields a
match record for that node. -/
theorem search_roundtrip_trimmed (corpus : List ContentNode) (node : ContentNode)
    (s : String) (hmem : node ∈ corpus)
    (hsub : containsStr (toLowerStr node.text) s = true)
    (hlen : 2 ≤ (trimStr s).length) :
    ∃ r, r ∈ (performSearch s corpus).fst ∧ r.nodeId = node.nodeId := by
  have hinf : s.data <:+: (toLowerStr node.text).data := (containsStr_iff_within _ _).mp hsub
  have hfix : toLowerStr s = s := toLowerStr_fixed_of_within hinf
  have hnorm : normalizeQuery s = trimStr s := normalizeQuery_of_lower_fixed hfix
  have htrim : (trimStr s).data <:+: s.data := trimStr_data_within s
  have hsub2 : containsStr (toLowerStr node.text) (trimStr s) = true :=
    (containsStr_iff_within _ _).mpr (List.IsInfix.trans htrim hinf)
  have hlen2 : ¬ ((trimStr s).length < 2) := by omega
  obtain ⟨r, hr, hid⟩ := scanAux_finds (trimStr s) corpus [] node hmem hsub2
  refine ⟨r, ?_, hid⟩
  have hps : (performSearch s corpus).fst = scanCorpus (trimStr s) corpus := by
    simp [performSearch, hnorm, hlen2]
  rw [hps]
  exact hr

/-- C6 witness: the already-normalized substring "a b" of the node text
"A b" is found, yielding a record for the node. -/
theorem search_roundtrip_trimmed_witness :
    ∃ r, r ∈ (performSearch "a b" [⟨0, "A b", none⟩]).fst ∧ r.nodeId = 0 :=
  search_roundtrip_trimmed [⟨0, "A b", none⟩] ⟨0, "A b", none⟩ "a b"
    (by decide) (by decide) (by decide)

/-- C7 (counterexample to the claim as stated): when `execCommand` returns
false the fallback still signals "Copied!", because the source discards the
boolean result of `document.execCommand('copy')`. -/
theorem fallbackCopy_false_still_success :
    (fallbackCopyToClipboard (ExecResult.returned false)
        ⟨0, "Copy", false, false⟩).buttonText = "Copied!" ∧
    ("Copied!" : String) ≠ "Failed" := by
  decide

/-- C7 (amended): the fallback signals "Failed" exactly when `execCommand`
throws and "Copied!" for any returned boolean (including false); the
temporary off-screen textarea is removed afterwards regardless of outcome
(the body child count is restored in every case). -/
theorem fallbackCopy_feedback_and_cleanup (e : ExecResult) (st : UIState) :
    (fallbackCopyToClipboard e st).bodyChildren = st.bodyChildren ∧
    (fallbackCopyToClipboard e st).buttonText = feedbackText e := by
  cases e with
  | threw => simp [fallbackCopyToClipboard, feedbackText, showCopySuccess]
  | returned b => simp [fallbackCopyToClipboard, feedbackText, showCopySuccess]

/-- C8: the language-sniffing rules run in the fixed source order with the
first match winning: the sample `echo '\x7b"hooks": \x7b\x7d\x7d'` satisfies
both the shell rule and the JSON rule, and resolves to "bash" because the
shell rule is checked first. -/
theorem detectLanguage_shell_priority :
    shellCond shellJsonSample = true ∧ jsonCond shellJsonSample = true ∧
    detectLanguage shellJsonSample = "bash" := by
  decide

/-- C9: at most 5 result records are rendered, and the reported total (the
raw pre-deduplication match count carried by the header) is at least the
number of rendered records. -/
theorem displaySearchResults_truncation (results : List MatchRecord) (q : String)
    (h : results ≠ []) :
    displaySearchResults results q =
      RenderModel.found results.length (displayedRecords results) q ∧
    (displayedRecords results).length ≤ 5 ∧
    (displayedRecords results).length ≤ results.length := by
  refine ⟨?_, ?_, ?_⟩
  · have hlen : (results.length == 0) = false := by
      simp [List.length_eq_zero, h]
    simp [displaySearchResults, hlen]
  · unfold displayedRecords
    rw [List.length_take]
    exact min_le_left 5 _
  · unfold displayedRecords
    have h1 : ((dedupResults results).take 5).length ≤ (dedupResults results).length := by
      rw [List.length_take]
      exact min_le_right _ _
    exact le_trans h1 (dedupAux_length_le results [])

/-- C9 witness: a singleton match list displays one record under the cap. -/
theorem displaySearchResults_truncation_witness :
    displaySearchResults [(⟨1, some ⟨"s1", "Alpha"⟩, "t"⟩ : MatchRecord)] "qq" =
      RenderModel.found 1 (displayedRecords [⟨1, some ⟨"s1", "Alpha"⟩, "t"⟩]) "qq" ∧
    (displayedRecords [(⟨1, some ⟨"s1", "Alpha"⟩, "t"⟩ : MatchRecord)]).length ≤ 5 ∧
    (displayedRecords [(⟨1, some ⟨"s1", "Alpha"⟩, "t"⟩ : MatchRecord)]).length ≤
      [(⟨1, some ⟨"s1", "Alpha"⟩, "t"⟩ : MatchRecord)].length :=
  displaySearchResults_truncation [⟨1, some ⟨"s1", "Alpha"⟩, "t"⟩] "qq" (by decide)

/-- C10: a non-empty match list in which every record's heading is null
renders the "Found N results" header with N the raw match count and zero
result entries - not the no-results message - and therefore the "Content"
fallback label (which only `renderEntry` can produce) is never rendered. -/
theorem displaySearchResults_all_null_headings (results : List MatchRecord) (q : String)
    (h1 : results ≠ []) (h2 : ∀ r ∈ results, r.heading = none) :
    displaySearchResults results q = RenderModel.found results.length [] q ∧
    renderHtml (displaySearchResults results q) = searchHeaderHtml results.length := by
  have hded : dedupResults results = [] := dedupAux_all_none results [] h2
  have hdisp : displayedRecords results = [] := by
    simp [displayedRecords, hded]
  have hlen : (results.length == 0) = false := by
    simp [List.length_eq_zero, h1]
  have hfst : displaySearchResults results q = RenderModel.found results.length [] q := by
    simp [displaySearchResults, hlen, hdisp]
  refine ⟨hfst, ?_⟩
  rw [hfst]
  show searchHeaderHtml results.length ++ String.join ([].map (renderEntry q)) =
    searchHeaderHtml results.length
  rw [List.map_nil]
  show searchHeaderHtml results.length ++ "" = searchHeaderHtml results.length
  exact String.append_empty _

/-- C10 witness: one null-heading record yields the header for one match and
no entries. -/
theorem displaySearchResults_all_null_headings_witness :
    displaySearchResults [(⟨0, none, "x"⟩ : MatchRecord)] "xy" =
      RenderModel.found 1 [] "xy" ∧
    renderHtml (displaySearchResults [(⟨0, none, "x"⟩ : MatchRecord)] "xy") =
      searchHeaderHtml 1 :=
  displaySearchResults_all_null_headings [⟨0, none, "x"⟩] "xy" (by decide) (by decide)
